import Mathlib

/-!
Verification of a proportional-allocation rebalancing notebook.

The source defines three pure functions over numeric sequences:
`calculate_new_percentages` (the rebalance-target calculator),
`objective_function` (summed squared distance to the calculator's output),
and `final_share` (forecast of end-of-period shares).  The constrained
least-squares projection itself is delegated by the source to an external
black-box solver (`scipy.optimize.minimize`); the projector is therefore
modelled here from the specification's exact per-coordinate
characterisation (clipping at a Lagrange multiplier).

Numbers are embedded as rationals: the source's arithmetic on these inputs
is the field arithmetic of its formulas, and ℚ keeps every definition
executable and decidable on concrete inputs.  Sequences are lists; the
componentwise numpy operations on equal-length arrays become `zipWith`.
All theorems about unequal-length behaviour are avoided (numpy would
broadcast or reject such inputs); every statement carries the equal-length
hypotheses under which `zipWith` is the exact embedding.
-/

namespace Optimization

/-- Source: `calculate_new_percentages(t_i, cs_i, N_tot, N_passed)` returns
`(N_passed/(N_tot - N_passed))*(np.array(t_i) - np.array(cs_i)) + np.array(t_i)`
componentwise. -/
def calculate_new_percentages (t_i cs_i : List ℚ) (N_tot N_passed : ℚ) : List ℚ :=
  List.zipWith (fun t cs => N_passed / (N_tot - N_passed) * (t - cs) + t) t_i cs_i

/-- Source: `objective_function(nt_i, t_i, cs_i, N_tot, N_passed)` returns
`np.sum((nt_i - calculate_new_percentages(t_i, cs_i, N_tot, N_passed))**2)`. -/
def objective_function (nt_i t_i cs_i : List ℚ) (N_tot N_passed : ℚ) : ℚ :=
  (List.zipWith (fun nt c => (nt - c) ^ 2) nt_i
    (calculate_new_percentages t_i cs_i N_tot N_passed)).sum

/-- Source: `final_share(nt_i, cs_i, N_tot, N_passed)` returns
`(np.array(cs_i)*N_passed + np.array(nt_i)*(N_tot - N_passed))/N_tot`
componentwise. -/
def final_share (nt_i cs_i : List ℚ) (N_tot N_passed : ℚ) : List ℚ :=
  List.zipWith (fun nt cs => (cs * N_passed + nt * (N_tot - N_passed)) / N_tot) nt_i cs_i

/-- Modelled from the spec: `clip(v, lo, hi) = max(lo, min(hi, v))` (§4.2,
shared numeric utility; the source has no standalone clip, it lives inside
the external solver's handling of the box bounds). -/
def clip (v lo hi : ℚ) : ℚ := max lo (min hi v)

/-- Three-list analogue of `List.zipWith`, truncating at the shortest list. -/
def zipWith3 {α β γ δ : Type} (f : α → β → γ → δ) : List α → List β → List γ → List δ
  | a :: as, b :: bs, c :: cs => f a b c :: zipWith3 f as bs cs
  | _, _, _ => []

/-- Modelled from the spec: for a fixed multiplier `lam` the per-coordinate
optimum of the projector is `x_i(lam) = clip(r_i - lam, lower_i, upper_i)`
(§4.2 step 1; the source delegates the whole projection to
`scipy.optimize.minimize`, which is not part of this repository). -/
def projCoords (r lower upper : List ℚ) (lam : ℚ) : List ℚ :=
  zipWith3 (fun ri lo hi => clip (ri - lam) lo hi) r lower upper

/-- Modelled from the spec: `S(lam) = Σ x_i(lam)` (§4.2 step 2). -/
def S (r lower upper : List ℚ) (lam : ℚ) : ℚ :=
  (projCoords r lower upper lam).sum

/-- Modelled from the spec: the projector succeeds with output `x` exactly
when `x = clip(r - lam*)` componentwise for a multiplier `lam*` at which the
clipped sum meets `target_sum` (§4.2 steps 3–5; the root-finding procedure
that locates `lam*` is external to this repository, so success is stated as
the existence of the multiplier it finds). -/
def IsProjection (r lower upper : List ℚ) (target_sum : ℚ) (x : List ℚ) : Prop :=
  ∃ lam : ℚ, S r lower upper lam = target_sum ∧ x = projCoords r lower upper lam

/-- Modelled from the spec: error kinds of the projector (§7; the source
never inspects the solver's failure status, so the error surface exists only
in the spec). -/
inductive ProjectorError where
  | InfeasibleBounds
deriving DecidableEq

/-- Modelled from the spec: the projector's feasibility precheck — if
`Σ lower_i > target_sum` or `Σ upper_i < target_sum` the feasible region is
empty and the call fails with `InfeasibleBounds` (§4.2 edge cases). -/
def checkFeasible (lower upper : List ℚ) (target_sum : ℚ) : Except ProjectorError Unit :=
  if target_sum < lower.sum ∨ upper.sum < target_sum then .error .InfeasibleBounds
  else .ok ()

/-- Sum of squared componentwise distances, the metric the projector
minimises (`Σ (x_i - r_i)^2`). -/
def sqDist (x r : List ℚ) : ℚ :=
  (List.zipWith (fun a b => (a - b) ^ 2) x r).sum

/-! ### Helper lemmas -/

lemma calc_length (t cs : List ℚ) (T e : ℚ) (hlen : t.length = cs.length) :
    (calculate_new_percentages t cs T e).length = t.length := by
  simp [calculate_new_percentages, hlen]

lemma calc_get (t cs : List ℚ) (T e : ℚ) (i : ℕ)
    (h2 : i < t.length) (h3 : i < cs.length)
    (h1 : i < (calculate_new_percentages t cs T e).length) :
    (calculate_new_percentages t cs T e).get ⟨i, h1⟩ =
      e / (T - e) * (t.get ⟨i, h2⟩ - cs.get ⟨i, h3⟩) + t.get ⟨i, h2⟩ := by
  simp [calculate_new_percentages, List.get_eq_getElem, List.getElem_zipWith]

lemma final_share_length (nt cs : List ℚ) (T e : ℚ) (hlen : nt.length = cs.length) :
    (final_share nt cs T e).length = nt.length := by
  simp [final_share, hlen]

lemma final_share_get (nt cs : List ℚ) (T e : ℚ) (i : ℕ)
    (h2 : i < nt.length) (h3 : i < cs.length)
    (h1 : i < (final_share nt cs T e).length) :
    (final_share nt cs T e).get ⟨i, h1⟩ =
      (cs.get ⟨i, h3⟩ * e + nt.get ⟨i, h2⟩ * (T - e)) / T := by
  simp [final_share, List.get_eq_getElem, List.getElem_zipWith]

/-! ### Calculator and forecast-helper claims -/

/-- C3: for equal-length sequences `t`, `cs` and any integers
`0 < elapsed < total`, the rebalance-target calculator returns, for each
category `i`, exactly `(elapsed / (total - elapsed)) * (t_i - cs_i) + t_i`. -/
theorem calculator_formula (t cs : List ℚ) (elapsed total : ℤ)
    (hlen : t.length = cs.length) (h0 : 0 < elapsed) (ht : elapsed < total) :
    (calculate_new_percentages t cs (total : ℚ) (elapsed : ℚ)).length = t.length ∧
    ∀ i (h2 : i < t.length) (h3 : i < cs.length)
      (h1 : i < (calculate_new_percentages t cs (total : ℚ) (elapsed : ℚ)).length),
      (calculate_new_percentages t cs (total : ℚ) (elapsed : ℚ)).get ⟨i, h1⟩ =
        (elapsed : ℚ) / ((total : ℚ) - (elapsed : ℚ)) * (t.get ⟨i, h2⟩ - cs.get ⟨i, h3⟩) +
          t.get ⟨i, h2⟩ :=
  ⟨calc_length t cs _ _ hlen, fun i h2 h3 h1 => calc_get t cs _ _ i h2 h3 h1⟩

/-- Witness for C3 at Scenario D's input: the second component of the
calculator's output is `3 * (22 - 23.5) + 22 = 17.5`. -/
theorem calculator_formula_witness :
    (calculate_new_percentages [28, 22, 15, 25, 10] [16.2, 23.5, 14.8, 27.6, 17.9]
        ((32 : ℤ) : ℚ) ((24 : ℤ) : ℚ)).length = 5 ∧
    ∀ i (h2 : i < ([28, 22, 15, 25, 10] : List ℚ).length)
      (h3 : i < ([16.2, 23.5, 14.8, 27.6, 17.9] : List ℚ).length)
      (h1 : i < (calculate_new_percentages [28, 22, 15, 25, 10]
        [16.2, 23.5, 14.8, 27.6, 17.9] ((32 : ℤ) : ℚ) ((24 : ℤ) : ℚ)).length),
      (calculate_new_percentages [28, 22, 15, 25, 10] [16.2, 23.5, 14.8, 27.6, 17.9]
          ((32 : ℤ) : ℚ) ((24 : ℤ) : ℚ)).get ⟨i, h1⟩ =
        ((24 : ℤ) : ℚ) / (((32 : ℤ) : ℚ) - ((24 : ℤ) : ℚ)) *
            (([28, 22, 15, 25, 10] : List ℚ).get ⟨i, h2⟩ -
              ([16.2, 23.5, 14.8, 27.6, 17.9] : List ℚ).get ⟨i, h3⟩) +
          ([28, 22, 15, 25, 10] : List ℚ).get ⟨i, h2⟩ :=
  calculator_formula [28, 22, 15, 25, 10] [16.2, 23.5, 14.8, 27.6, 17.9] 24 32
    (by rfl) (by decide) (by decide)

/-- C8: for equal-length sequences `nt`, `cs` and any integers
`0 < elapsed < total`, `final_share` returns, for each category `i`, exactly
`(cs_i * elapsed + nt_i * (total - elapsed)) / total`. -/
theorem final_share_formula (nt cs : List ℚ) (elapsed total : ℤ)
    (hlen : nt.length = cs.length) (h0 : 0 < elapsed) (ht : elapsed < total) :
    (final_share nt cs (total : ℚ) (elapsed : ℚ)).length = nt.length ∧
    ∀ i (h2 : i < nt.length) (h3 : i < cs.length)
      (h1 : i < (final_share nt cs (total : ℚ) (elapsed : ℚ)).length),
      (final_share nt cs (total : ℚ) (elapsed : ℚ)).get ⟨i, h1⟩ =
        (cs.get ⟨i, h3⟩ * (elapsed : ℚ) + nt.get ⟨i, h2⟩ * ((total : ℚ) - (elapsed : ℚ))) /
          (total : ℚ) :=
  ⟨final_share_length nt cs _ _ hlen, fun i h2 h3 h1 => final_share_get nt cs _ _ i h2 h3 h1⟩

/-- Witness for C8 at the notebook's concrete shares and periods. -/
theorem final_share_formula_witness :
    (final_share [(50 : ℚ), 50] [16.2, 23.5] ((32 : ℤ) : ℚ) ((24 : ℤ) : ℚ)).length = 2 ∧
    ∀ i (h2 : i < ([(50 : ℚ), 50] : List ℚ).length)
      (h3 : i < ([16.2, 23.5] : List ℚ).length)
      (h1 : i < (final_share [(50 : ℚ), 50] [16.2, 23.5]
        ((32 : ℤ) : ℚ) ((24 : ℤ) : ℚ)).length),
      (final_share [(50 : ℚ), 50] [16.2, 23.5] ((32 : ℤ) : ℚ) ((24 : ℤ) : ℚ)).get ⟨i, h1⟩ =
        (([16.2, 23.5] : List ℚ).get ⟨i, h3⟩ * ((24 : ℤ) : ℚ) +
            ([(50 : ℚ), 50] : List ℚ).get ⟨i, h2⟩ * (((32 : ℤ) : ℚ) - ((24 : ℤ) : ℚ))) /
          ((32 : ℤ) : ℚ) :=
  final_share_formula [(50 : ℚ), 50] [16.2, 23.5] 24 32 (by rfl) (by decide) (by decide)

/-- C4: applying `final_share` to the calculator's output reproduces the
original targets exactly, component by component, for any equal-length
inputs and integers `0 < elapsed < total`. -/
theorem calculator_final_share_roundtrip (t cs : List ℚ) (elapsed total : ℤ)
    (hlen : t.length = cs.length) (h0 : 0 < elapsed) (ht : elapsed < total) :
    final_share (calculate_new_percentages t cs (total : ℚ) (elapsed : ℚ)) cs
      (total : ℚ) (elapsed : ℚ) = t := by
  have hT : ((total : ℚ)) ≠ 0 := by
    have : (0 : ℤ) < total := lt_trans h0 ht
    exact_mod_cast this.ne.symm
  have hTe : ((total : ℚ)) - ((elapsed : ℚ)) ≠ 0 := by
    have : ((elapsed : ℚ)) < ((total : ℚ)) := by exact_mod_cast ht
    exact sub_ne_zero.mpr this.ne.symm
  induction t generalizing cs with
  | nil => simp [calculate_new_percentages, final_share]
  | cons a t ih =>
    cases cs with
    | nil => simp at hlen
    | cons b cs =>
      have hlen2 : t.length = cs.length := by simpa using hlen
      simp only [calculate_new_percentages, final_share, List.zipWith_cons_cons] at *
      rw [List.cons.injEq]
      refine ⟨?_, ih cs hlen2⟩
      field_simp
      ring

/-- Witness for C4 at Scenario D's input. -/
theorem calculator_final_share_roundtrip_witness :
    final_share (calculate_new_percentages [28, 22, 15, 25, 10]
        [16.2, 23.5, 14.8, 27.6, 17.9] ((32 : ℤ) : ℚ) ((24 : ℤ) : ℚ))
      [16.2, 23.5, 14.8, 27.6, 17.9] ((32 : ℤ) : ℚ) ((24 : ℤ) : ℚ) =
      [28, 22, 15, 25, 10] :=
  calculator_final_share_roundtrip [28, 22, 15, 25, 10] [16.2, 23.5, 14.8, 27.6, 17.9]
    24 32 (by rfl) (by decide) (by decide)

/-- C6 counterexample: at `elapsed = 0` (an invalid period, `elapsed ≤ 0`)
the source calculator raises no error and produces a reference vector — it
returns `[28]` on targets `[28]`, shares `[16.2]`, `total = 32`.  There is
no `InvalidPeriod` failure anywhere in the source. -/
theorem calculator_accepts_invalid_period :
    calculate_new_percentages [28] [16.2] 32 0 = [28] := by
  simp only [calculate_new_percentages, List.zipWith]
  norm_num

/-- C6 amended: the source calculator performs no period validation — for
every equal-length input and any integers with `elapsed ≤ 0` or
`elapsed ≥ total` but `elapsed ≠ total`, it still returns the formula's
reference vector componentwise (only `elapsed = total` fails, with a raw
division by zero rather than `InvalidPeriod`). -/
theorem calculator_no_period_validation (t cs : List ℚ) (elapsed total : ℤ)
    (hlen : t.length = cs.length) (hbad : elapsed ≤ 0 ∨ total ≤ elapsed)
    (hne : elapsed ≠ total) :
    (calculate_new_percentages t cs (total : ℚ) (elapsed : ℚ)).length = t.length ∧
    ∀ i (h2 : i < t.length) (h3 : i < cs.length)
      (h1 : i < (calculate_new_percentages t cs (total : ℚ) (elapsed : ℚ)).length),
      (calculate_new_percentages t cs (total : ℚ) (elapsed : ℚ)).get ⟨i, h1⟩ =
        (elapsed : ℚ) / ((total : ℚ) - (elapsed : ℚ)) * (t.get ⟨i, h2⟩ - cs.get ⟨i, h3⟩) +
          t.get ⟨i, h2⟩ :=
  ⟨calc_length t cs _ _ hlen, fun i h2 h3 h1 => calc_get t cs _ _ i h2 h3 h1⟩

/-- Witness for the amended C6 at `elapsed = 0`, `total = 32`. -/
theorem calculator_no_period_validation_witness :
    (calculate_new_percentages [(28 : ℚ)] [16.2] ((32 : ℤ) : ℚ) ((0 : ℤ) : ℚ)).length = 1 ∧
    ∀ i (h2 : i < ([(28 : ℚ)] : List ℚ).length) (h3 : i < ([(16.2 : ℚ)] : List ℚ).length)
      (h1 : i < (calculate_new_percentages [(28 : ℚ)] [16.2]
        ((32 : ℤ) : ℚ) ((0 : ℤ) : ℚ)).length),
      (calculate_new_percentages [(28 : ℚ)] [16.2] ((32 : ℤ) : ℚ) ((0 : ℤ) : ℚ)).get ⟨i, h1⟩ =
        ((0 : ℤ) : ℚ) / (((32 : ℤ) : ℚ) - ((0 : ℤ) : ℚ)) *
            (([(28 : ℚ)] : List ℚ).get ⟨i, h2⟩ - ([(16.2 : ℚ)] : List ℚ).get ⟨i, h3⟩) +
          ([(28 : ℚ)] : List ℚ).get ⟨i, h2⟩ :=
  calculator_no_period_validation [(28 : ℚ)] [16.2] 0 32 (by rfl)
    (Or.inl (by decide)) (by decide)

/-- C7 counterexample: on Scenario D's input the calculator's output does
not round to `[59.97, 14.08, 12.18, 13.78, -3.97]` at two decimal places
(already the first component is `63.4`, more than `0.005` away from
`59.97`). -/
theorem scenarioD_reference_counterexample :
    ¬ List.Forall₂ (fun v c => |v - c| ≤ (1 / 200 : ℚ))
      (calculate_new_percentages [28, 22, 15, 25, 10] [16.2, 23.5, 14.8, 27.6, 17.9] 32 24)
      [59.97, 14.08, 12.18, 13.78, -3.97] := by
  simp only [calculate_new_percentages, List.zipWith, List.forall₂_cons]
  norm_num
  intro _ _
  rw [abs_of_nonneg (by norm_num)]
  norm_num

/-- C7 amended: on Scenario D's input
(`original_targets = [28, 22, 15, 25, 10]`,
`current_shares = [16.2, 23.5, 14.8, 27.6, 17.9]`, `elapsed = 24`,
`total = 32`) the calculator returns exactly
`[63.4, 17.5, 15.6, 17.2, -13.7]`. -/
theorem scenarioD_reference_exact :
    calculate_new_percentages [28, 22, 15, 25, 10] [16.2, 23.5, 14.8, 27.6, 17.9] 32 24 =
      [63.4, 17.5, 15.6, 17.2, -13.7] := by
  simp only [calculate_new_percentages, List.zipWith]
  norm_num

lemma zip_sq_sum_nonneg (a b : List ℚ) :
    0 ≤ (List.zipWith (fun x y => (x - y) ^ 2) a b).sum := by
  induction a generalizing b with
  | nil => simp
  | cons x a ih =>
    cases b with
    | nil => simp
    | cons y b =>
      simp only [List.zipWith_cons_cons, List.sum_cons]
      exact add_nonneg (sq_nonneg _) (ih b)

lemma zip_sq_sum_eq_zero_iff (a b : List ℚ) (h : a.length = b.length) :
    (List.zipWith (fun x y => (x - y) ^ 2) a b).sum = 0 ↔ a = b := by
  induction a generalizing b with
  | nil =>
    cases b with
    | nil => simp
    | cons y b => simp at h
  | cons x a ih =>
    cases b with
    | nil => simp at h
    | cons y b =>
      have h1 : a.length = b.length := by simpa using h
      simp only [List.zipWith_cons_cons, List.sum_cons]
      rw [add_eq_zero_iff_of_nonneg (sq_nonneg _) (zip_sq_sum_nonneg a b), ih b h1,
        pow_eq_zero_iff (two_ne_zero), sub_eq_zero, List.cons.injEq]

/-- C9: the objective function is a sum of squares, hence nonnegative, and
it vanishes exactly when the candidate new targets coincide componentwise
with the calculator's reference vector. -/
theorem objective_nonneg_zero_iff (nt t cs : List ℚ) (elapsed total : ℤ)
    (hnt : nt.length = t.length) (hlen : t.length = cs.length)
    (h0 : 0 < elapsed) (ht : elapsed < total) :
    0 ≤ objective_function nt t cs (total : ℚ) (elapsed : ℚ) ∧
    (objective_function nt t cs (total : ℚ) (elapsed : ℚ) = 0 ↔
      nt = calculate_new_percentages t cs (total : ℚ) (elapsed : ℚ)) := by
  have hcl : (calculate_new_percentages t cs (total : ℚ) (elapsed : ℚ)).length = t.length :=
    calc_length t cs _ _ hlen
  exact ⟨zip_sq_sum_nonneg nt _, zip_sq_sum_eq_zero_iff nt _ (by rw [hcl, hnt])⟩

/-- Witness for C9: on the notebook's data, the objective at `nt = [50] × 5`
is nonnegative and does not vanish (the initial guess is not the reference
vector). -/
theorem objective_nonneg_zero_iff_witness :
    0 ≤ objective_function [50, 50, 50, 50, 50] [28, 22, 15, 25, 10]
      [16.2, 23.5, 14.8, 27.6, 17.9] ((32 : ℤ) : ℚ) ((24 : ℤ) : ℚ) ∧
    (objective_function [50, 50, 50, 50, 50] [28, 22, 15, 25, 10]
        [16.2, 23.5, 14.8, 27.6, 17.9] ((32 : ℤ) : ℚ) ((24 : ℤ) : ℚ) = 0 ↔
      [50, 50, 50, 50, 50] = calculate_new_percentages [28, 22, 15, 25, 10]
        [16.2, 23.5, 14.8, 27.6, 17.9] ((32 : ℤ) : ℚ) ((24 : ℤ) : ℚ)) :=
  objective_nonneg_zero_iff [50, 50, 50, 50, 50] [28, 22, 15, 25, 10]
    [16.2, 23.5, 14.8, 27.6, 17.9] 24 32 (by rfl) (by rfl) (by decide) (by decide)

lemma convex_coord_bounds (nt cs T e : ℚ) (he : 0 < e) (het : e < T) :
    min cs nt ≤ (cs * e + nt * (T - e)) / T ∧ (cs * e + nt * (T - e)) / T ≤ max cs nt := by
  have hT : 0 < T := lt_trans he het
  constructor
  · rw [le_div_iff hT]
    rcases le_total cs nt with h | h
    · rw [min_eq_left h]
      nlinarith
    · rw [min_eq_right h]
      nlinarith
  · rw [div_le_iff hT]
    rcases le_total cs nt with h | h
    · rw [max_eq_right h]
      nlinarith
    · rw [max_eq_left h]
      nlinarith

/-- C10: `final_share` is a convex combination of the current share and the
new target: each component lies between their minimum and maximum; in
particular, inputs inside `[0, 100]` give forecasts inside `[0, 100]`. -/
theorem final_share_convex (nt cs : List ℚ) (elapsed total : ℤ)
    (hlen : nt.length = cs.length) (h0 : 0 < elapsed) (ht : elapsed < total) :
    (∀ i (h2 : i < nt.length) (h3 : i < cs.length)
       (h1 : i < (final_share nt cs (total : ℚ) (elapsed : ℚ)).length),
       min (cs.get ⟨i, h3⟩) (nt.get ⟨i, h2⟩) ≤
           (final_share nt cs (total : ℚ) (elapsed : ℚ)).get ⟨i, h1⟩ ∧
         (final_share nt cs (total : ℚ) (elapsed : ℚ)).get ⟨i, h1⟩ ≤
           max (cs.get ⟨i, h3⟩) (nt.get ⟨i, h2⟩)) ∧
    ((∀ i (h2 : i < nt.length), 0 ≤ nt.get ⟨i, h2⟩ ∧ nt.get ⟨i, h2⟩ ≤ 100) →
     (∀ i (h3 : i < cs.length), 0 ≤ cs.get ⟨i, h3⟩ ∧ cs.get ⟨i, h3⟩ ≤ 100) →
     ∀ i (h1 : i < (final_share nt cs (total : ℚ) (elapsed : ℚ)).length),
       0 ≤ (final_share nt cs (total : ℚ) (elapsed : ℚ)).get ⟨i, h1⟩ ∧
         (final_share nt cs (total : ℚ) (elapsed : ℚ)).get ⟨i, h1⟩ ≤ 100) := by
  have he : (0 : ℚ) < (elapsed : ℚ) := by exact_mod_cast h0
  have het : ((elapsed : ℚ)) < ((total : ℚ)) := by exact_mod_cast ht
  have hmain : ∀ i (h2 : i < nt.length) (h3 : i < cs.length)
      (h1 : i < (final_share nt cs (total : ℚ) (elapsed : ℚ)).length),
      min (cs.get ⟨i, h3⟩) (nt.get ⟨i, h2⟩) ≤
          (final_share nt cs (total : ℚ) (elapsed : ℚ)).get ⟨i, h1⟩ ∧
        (final_share nt cs (total : ℚ) (elapsed : ℚ)).get ⟨i, h1⟩ ≤
          max (cs.get ⟨i, h3⟩) (nt.get ⟨i, h2⟩) := by
    intro i h2 h3 h1
    rw [final_share_get nt cs _ _ i h2 h3 h1]
    exact convex_coord_bounds (nt.get ⟨i, h2⟩) (cs.get ⟨i, h3⟩) _ _ he het
  refine ⟨hmain, ?_⟩
  intro hnt hcs i h1
  have hlens : i < nt.length := by
    have := final_share_length nt cs ((total : ℚ)) ((elapsed : ℚ)) hlen
    omega
  have hlcs : i < cs.length := by rw [hlen] at hlens; exact hlens
  obtain ⟨ha, hb⟩ := hmain i hlens hlcs h1
  constructor
  · exact le_trans (le_min (hcs i hlcs).1 (hnt i hlens).1) ha
  · exact le_trans hb (max_le (hcs i hlcs).2 (hnt i hlens).2)

/-- Witness for C10 at the notebook's current shares against an all-fifty
target vector. -/
theorem final_share_convex_witness :
    (∀ i (h2 : i < ([(50 : ℚ), 50, 50, 50, 50] : List ℚ).length)
       (h3 : i < ([(16.2 : ℚ), 23.5, 14.8, 27.6, 17.9] : List ℚ).length)
       (h1 : i < (final_share [(50 : ℚ), 50, 50, 50, 50] [16.2, 23.5, 14.8, 27.6, 17.9]
         ((32 : ℤ) : ℚ) ((24 : ℤ) : ℚ)).length),
       min (([(16.2 : ℚ), 23.5, 14.8, 27.6, 17.9] : List ℚ).get ⟨i, h3⟩)
             (([(50 : ℚ), 50, 50, 50, 50] : List ℚ).get ⟨i, h2⟩) ≤
           (final_share [(50 : ℚ), 50, 50, 50, 50] [16.2, 23.5, 14.8, 27.6, 17.9]
             ((32 : ℤ) : ℚ) ((24 : ℤ) : ℚ)).get ⟨i, h1⟩ ∧
         (final_share [(50 : ℚ), 50, 50, 50, 50] [16.2, 23.5, 14.8, 27.6, 17.9]
             ((32 : ℤ) : ℚ) ((24 : ℤ) : ℚ)).get ⟨i, h1⟩ ≤
           max (([(16.2 : ℚ), 23.5, 14.8, 27.6, 17.9] : List ℚ).get ⟨i, h3⟩)
             (([(50 : ℚ), 50, 50, 50, 50] : List ℚ).get ⟨i, h2⟩)) ∧
    ((∀ i (h2 : i < ([(50 : ℚ), 50, 50, 50, 50] : List ℚ).length),
        0 ≤ ([(50 : ℚ), 50, 50, 50, 50] : List ℚ).get ⟨i, h2⟩ ∧
          ([(50 : ℚ), 50, 50, 50, 50] : List ℚ).get ⟨i, h2⟩ ≤ 100) →
     (∀ i (h3 : i < ([(16.2 : ℚ), 23.5, 14.8, 27.6, 17.9] : List ℚ).length),
        0 ≤ ([(16.2 : ℚ), 23.5, 14.8, 27.6, 17.9] : List ℚ).get ⟨i, h3⟩ ∧
          ([(16.2 : ℚ), 23.5, 14.8, 27.6, 17.9] : List ℚ).get ⟨i, h3⟩ ≤ 100) →
     ∀ i (h1 : i < (final_share [(50 : ℚ), 50, 50, 50, 50] [16.2, 23.5, 14.8, 27.6, 17.9]
       ((32 : ℤ) : ℚ) ((24 : ℤ) : ℚ)).length),
       0 ≤ (final_share [(50 : ℚ), 50, 50, 50, 50] [16.2, 23.5, 14.8, 27.6, 17.9]
           ((32 : ℤ) : ℚ) ((24 : ℤ) : ℚ)).get ⟨i, h1⟩ ∧
         (final_share [(50 : ℚ), 50, 50, 50, 50] [16.2, 23.5, 14.8, 27.6, 17.9]
             ((32 : ℤ) : ℚ) ((24 : ℤ) : ℚ)).get ⟨i, h1⟩ ≤ 100) :=
  final_share_convex [(50 : ℚ), 50, 50, 50, 50] [16.2, 23.5, 14.8, 27.6, 17.9] 24 32
    (by rfl) (by decide) (by decide)

/-! ### Projector lemmas -/

lemma clip_mem (v lo hi : ℚ) (h : lo ≤ hi) : lo ≤ clip v lo hi ∧ clip v lo hi ≤ hi :=
  ⟨le_max_left _ _, max_le h (min_le_left _ _)⟩

lemma projCoords_bounds (lam : ℚ) :
    ∀ (r lower upper : List ℚ), r.length = lower.length →
    List.Forall₂ (· ≤ ·) lower upper →
    List.Forall₂ (· ≤ ·) lower (projCoords r lower upper lam) ∧
    List.Forall₂ (· ≤ ·) (projCoords r lower upper lam) upper := by
  intro r
  induction r with
  | nil =>
    intro lower upper hlen hb
    cases lower with
    | nil =>
      cases hb
      simp [projCoords, zipWith3]
    | cons lo lower => simp at hlen
  | cons a r ih =>
    intro lower upper hlen hb
    cases lower with
    | nil => simp at hlen
    | cons lo lower =>
      cases upper with
      | nil => cases hb
      | cons hi upper =>
        rw [List.forall₂_cons] at hb
        have hlen2 : r.length = lower.length := by simpa using hlen
        have hrec := ih lower upper hlen2 hb.2
        have hcl := clip_mem (a - lam) lo hi hb.1
        simp only [projCoords, zipWith3] at *
        exact ⟨List.Forall₂.cons hcl.1 hrec.1, List.Forall₂.cons hcl.2 hrec.2⟩

lemma forall₂_le_sum_le (a b : List ℚ) (h : List.Forall₂ (· ≤ ·) a b) :
    a.sum ≤ b.sum := by
  induction h with
  | nil => simp
  | cons hab hrest ih =>
    simp only [List.sum_cons]
    exact add_le_add hab ih

lemma S_bounds (r lower upper : List ℚ) (lam : ℚ)
    (hlen : r.length = lower.length) (hb : List.Forall₂ (· ≤ ·) lower upper) :
    lower.sum ≤ S r lower upper lam ∧ S r lower upper lam ≤ upper.sum := by
  obtain ⟨h1, h2⟩ := projCoords_bounds lam r lower upper hlen hb
  exact ⟨forall₂_le_sum_le _ _ h1, forall₂_le_sum_le _ _ h2⟩

lemma clip_kkt (r lo hi y lam : ℚ) (h1 : lo ≤ y) (h2 : y ≤ hi) :
    (clip (r - lam) lo hi - r) ^ 2 + 2 * lam * clip (r - lam) lo hi ≤
      (y - r) ^ 2 + 2 * lam * y := by
  have hb : lo ≤ hi := le_trans h1 h2
  unfold clip
  rcases le_total (r - lam) lo with h | h
  · rw [min_eq_right (h.trans hb), max_eq_left h]
    nlinarith [mul_nonneg (sub_nonneg.mpr h1) (sub_nonneg.mpr h), sq_nonneg (y - lo)]
  · rcases le_total (r - lam) hi with h' | h'
    · rw [min_eq_right h', max_eq_right h]
      nlinarith [sq_nonneg (y - r + lam)]
    · rw [min_eq_left h', max_eq_right hb]
      nlinarith [mul_nonneg (sub_nonneg.mpr h2) (sub_nonneg.mpr h'), sq_nonneg (y - hi)]

lemma kkt_sum (lam : ℚ) :
    ∀ (r lower upper y : List ℚ), r.length = lower.length →
    List.Forall₂ (· ≤ ·) lower y → List.Forall₂ (· ≤ ·) y upper →
    sqDist (projCoords r lower upper lam) r +
        2 * lam * (projCoords r lower upper lam).sum ≤
      sqDist y r + 2 * lam * y.sum := by
  intro r
  induction r with
  | nil =>
    intro lower upper y hlen hy1 hy2
    cases lower with
    | nil =>
      cases hy1
      cases hy2
      simp [sqDist, projCoords, zipWith3]
    | cons lo lower => simp at hlen
  | cons a r ih =>
    intro lower upper y hlen hy1 hy2
    cases lower with
    | nil => simp at hlen
    | cons lo lower =>
      cases y with
      | nil => cases hy1
      | cons yv y =>
        cases upper with
        | nil => cases hy2
        | cons hi upper =>
          rw [List.forall₂_cons] at hy1 hy2
          have hlen2 : r.length = lower.length := by simpa using hlen
          have hrec := ih lower upper y hlen2 hy1.2 hy2.2
          have hco := clip_kkt a lo hi yv lam hy1.1 hy2.1
          simp only [projCoords, zipWith3, sqDist, List.zipWith_cons_cons,
            List.sum_cons] at *
          nlinarith [hrec, hco]

/-! ### Projector claims -/

/-- C1: whenever the projector succeeds (its multiplier-characterised output
exists) on bound vectors forming a box (`lower ≤ upper` componentwise, as a
nonempty feasible region requires), every component of the returned vector
lies within its bounds and the components sum exactly to `target_sum`. -/
theorem projector_feasible (r lower upper x : List ℚ) (target_sum : ℚ)
    (hlen : r.length = lower.length) (hb : List.Forall₂ (· ≤ ·) lower upper)
    (hx : IsProjection r lower upper target_sum x) :
    List.Forall₂ (· ≤ ·) lower x ∧ List.Forall₂ (· ≤ ·) x upper ∧
      x.sum = target_sum := by
  obtain ⟨lam, hS, hxeq⟩ := hx
  subst hxeq
  obtain ⟨h1, h2⟩ := projCoords_bounds lam r lower upper hlen hb
  exact ⟨h1, h2, hS⟩

/-- Witness for C1 at Scenario A: reference `[30, 30, 40]`, bounds
`[0, 100]` per coordinate, required sum `100`; the multiplier `0` already
meets the sum, and the output is the reference itself. -/
theorem projector_feasible_witness :
    List.Forall₂ (· ≤ ·) [(0 : ℚ), 0, 0] [(30 : ℚ), 30, 40] ∧
    List.Forall₂ (· ≤ ·) [(30 : ℚ), 30, 40] [(100 : ℚ), 100, 100] ∧
    ([(30 : ℚ), 30, 40] : List ℚ).sum = 100 :=
  projector_feasible [30, 30, 40] [0, 0, 0] [100, 100, 100] [30, 30, 40] 100
    (by rfl)
    (by simp only [List.forall₂_cons, List.forall₂_nil_right_iff]
        norm_num)
    ⟨0, by norm_num [S, projCoords, zipWith3, clip, min_def, max_def],
      by norm_num [projCoords, zipWith3, clip, min_def, max_def]⟩

/-- C2: the projector's output minimises the summed squared distance to the
reference vector over all vectors satisfying the box bounds and the sum
constraint. -/
theorem projector_optimal (r lower upper x y : List ℚ) (target_sum : ℚ)
    (hlen : r.length = lower.length)
    (hx : IsProjection r lower upper target_sum x)
    (hy1 : List.Forall₂ (· ≤ ·) lower y) (hy2 : List.Forall₂ (· ≤ ·) y upper)
    (hysum : y.sum = target_sum) :
    sqDist x r ≤ sqDist y r := by
  obtain ⟨lam, hS, hxeq⟩ := hx
  subst hxeq
  have h := kkt_sum lam r lower upper y hlen hy1 hy2
  have hxs : (projCoords r lower upper lam).sum = target_sum := hS
  rw [hxs, hysum] at h
  linarith

/-- Witness for C2 at Scenario A against the competing feasible vector
`[40, 30, 30]`. -/
theorem projector_optimal_witness :
    sqDist [(30 : ℚ), 30, 40] [(30 : ℚ), 30, 40] ≤
      sqDist [(40 : ℚ), 30, 30] [(30 : ℚ), 30, 40] :=
  projector_optimal [30, 30, 40] [0, 0, 0] [100, 100, 100] [30, 30, 40]
    [40, 30, 30] 100 (by rfl)
    ⟨0, by norm_num [S, projCoords, zipWith3, clip, min_def, max_def],
      by norm_num [projCoords, zipWith3, clip, min_def, max_def]⟩
    (by simp only [List.forall₂_cons, List.forall₂_nil_right_iff]
        norm_num)
    (by simp only [List.forall₂_cons, List.forall₂_nil_right_iff]
        norm_num)
    (by norm_num)

/-- C5: when the sum of the lower bounds exceeds `target_sum` or the sum of
the upper bounds falls short of it, the feasibility precheck fails with
`InfeasibleBounds`, and no vector at all can be a projector output (the
clipped sum can never meet `target_sum`). -/
theorem projector_infeasible (r lower upper : List ℚ) (target_sum : ℚ)
    (hlen : r.length = lower.length) (hb : List.Forall₂ (· ≤ ·) lower upper)
    (hbad : target_sum < lower.sum ∨ upper.sum < target_sum) :
    checkFeasible lower upper target_sum = .error .InfeasibleBounds ∧
      ∀ x, ¬ IsProjection r lower upper target_sum x := by
  constructor
  · unfold checkFeasible
    rw [if_pos hbad]
  · rintro x ⟨lam, hS, hxeq⟩
    obtain ⟨hl, hu⟩ := S_bounds r lower upper lam hlen hb
    rw [hS] at hl hu
    rcases hbad with h | h
    · linarith
    · linarith

/-- Witness for C5 at Scenario C: `lower = [50, 50]`, `upper = [100, 100]`,
`target_sum = 10` (reference taken as `[0, 0]`). -/
theorem projector_infeasible_witness :
    checkFeasible [(50 : ℚ), 50] [(100 : ℚ), 100] 10 = .error .InfeasibleBounds ∧
      ∀ x, ¬ IsProjection [(0 : ℚ), 0] [(50 : ℚ), 50] [(100 : ℚ), 100] 10 x :=
  projector_infeasible [0, 0] [50, 50] [100, 100] 10 (by rfl)
    (by simp only [List.forall₂_cons, List.forall₂_nil_right_iff]
        norm_num)
    (Or.inl (by norm_num))

end Optimization
